import Mathlib

/-!
Verification of the phishing-analysis core of `istopphish`
(`backend/services/phishing_analyzer.py` and `backend/services/llm_service.py`).

Python strings are modelled as `List Char` (or Lean `String` where convenient),
Python ints as `Nat`, and the float arithmetic of the fusion engine as exact
rationals (`ℚ`); Python dicts with a fixed key set become structures, and dicts
with possibly-missing keys become structures of `Option` fields, `dict.get`
with a default becoming `Option.getD`.  A Python expression that raises is
modelled by an `Option`/`Except` result being `none`/`error`.
-/

namespace IStopPhish

/-! ## Generic string helpers (models of Python str/list primitives) -/

/-- Model of Python `min(a, b)` on rationals: the first argument when `a <= b`. -/
def pyMin (a b : ℚ) : ℚ := if a ≤ b then a else b

/-- Consume `pat` as a literal prefix of `s`; return the remainder when it matches. -/
def dropLit : List Char → List Char → Option (List Char)
  | [], s => some s
  | _ :: _, [] => none
  | a :: as, b :: bs => if a = b then dropLit as bs else none

/-- Does `pat` occur at the start of `s`?  Model of `str.startswith`. -/
def startsWithL (pat s : List Char) : Bool :=
  (dropLit pat s).isSome

/-- Does `needle` occur as a contiguous substring of `hay`?  Model of Python `in`. -/
def containsSub (needle : List Char) : List Char → Bool
  | [] => (dropLit needle []).isSome
  | c :: rest => (dropLit needle (c :: rest)).isSome || containsSub needle rest

/-- Split at the first occurrence of character `d`: model of `str.split(d, 1)`
    (and of `str.find` combined with slicing).  `none` when `d` is absent. -/
def splitOnce (d : Char) : List Char → Option (List Char × List Char)
  | [] => none
  | c :: rest =>
    if c = d then some ([], rest)
    else (splitOnce d rest).map (fun p => (c :: p.1, p.2))

/-- Split on every occurrence of `d`: model of `str.split(d)`. -/
def splitAll (d : Char) : List Char → List (List Char)
  | [] => [[]]
  | c :: rest =>
    if c = d then [] :: splitAll d rest
    else
      match splitAll d rest with
      | h :: t => (c :: h) :: t
      | [] => [[c]]

/-- Split at the last occurrence of `d` (model of `str.rfind` + slicing). -/
def splitLast (d : Char) (l : List Char) : Option (List Char × List Char) :=
  match splitOnce d l.reverse with
  | some (a, b) => some (b.reverse, a.reverse)
  | none => none

/-- Join a list of strings with a separator: model of `sep.join(xs)`. -/
def joinWith (sep : List Char) : List (List Char) → List Char
  | [] => []
  | [w] => w
  | w :: ws => w ++ sep ++ joinWith sep ws

/-- `sep.join` on Lean `String`s. -/
def joinStr (sep : String) (xs : List String) : String :=
  ⟨joinWith sep.data (xs.map String.data)⟩

/-- Lower-case a character list (ASCII, as used by `re.IGNORECASE` here). -/
def lowerL (l : List Char) : List Char := l.map Char.toLower

/-! ## Model of `urllib.parse.urlparse`

Only the behaviour exercised by `_heuristic_url_check` is modelled: splitting
off a valid scheme, extracting the netloc after `//` (stopping at `/?#`),
the `ValueError("Invalid IPv6 URL")` raised on unbalanced brackets in the
netloc, fragment/query splitting, and the `;`-params split of `urlparse`.
The `Except` error models the raised `ValueError`. -/

structure UrlParts where
  scheme : List Char
  netloc : List Char
  path : List Char
  params : List Char
  query : List Char
  fragment : List Char
deriving DecidableEq, Repr

/-- Characters allowed in a URL scheme (`scheme_chars` in `urllib.parse`). -/
def schemeChar (c : Char) : Bool :=
  c.isAlpha || c.isDigit || c = '+' || c = '-' || c = '.'

/-- Characters that terminate the netloc (`_splitnetloc` delimiters). -/
def netlocEnd (c : Char) : Bool := c = '/' || c = '?' || c = '#'

/-- The `_splitparams` helper of `urlparse`: split `;params` off the path,
    looking only in the last `/`-segment when the path contains `/`. -/
def splitParams (p : List Char) : List Char × List Char :=
  if p.contains ';' then
    if p.contains '/' then
      match splitLast '/' p with
      | some (before, after) =>
        match splitOnce ';' after with
        | some (x, y) => (before ++ '/' :: x, y)
        | none => (p, [])
      | none => (p, [])
    else
      match splitOnce ';' p with
      | some (x, y) => (x, y)
      | none => (p, [])
  else (p, [])

/-- Model of `urllib.parse.urlparse` (ASCII fidelity).  Returns `Except.error`
    where CPython raises `ValueError("Invalid IPv6 URL")`. -/
def pyUrlparse (url : List Char) : Except String UrlParts :=
  -- scheme split: `i = url.find(':')`, valid iff the part before is nonempty,
  -- starts with a letter, and consists of scheme characters only
  let schemeSplit :=
    match splitOnce ':' url with
    | some (before, after) =>
      match before with
      | [] => ([], url)
      | c0 :: _ =>
        if c0.isAlpha && before.all schemeChar then (lowerL before, after)
        else ([], url)
    | none => ([], url)
  let scheme := schemeSplit.1
  let rest0 := schemeSplit.2
  -- netloc: present iff the remainder starts with `//`
  let netlocSplit :=
    match rest0 with
    | '/' :: '/' :: tail => (tail.takeWhile (fun c => !netlocEnd c),
                             tail.dropWhile (fun c => !netlocEnd c))
    | _ => ([], rest0)
  let netloc := netlocSplit.1
  let rest1 := netlocSplit.2
  if (netloc.contains '[' && !netloc.contains ']') ||
     (netloc.contains ']' && !netloc.contains '[') then
    .error "Invalid IPv6 URL"
  else
    -- fragment first, then query, as in `urlsplit`
    let fragSplit :=
      match splitOnce '#' rest1 with
      | some (a, f) => (a, f)
      | none => (rest1, [])
    let querySplit :=
      match splitOnce '?' fragSplit.1 with
      | some (a, q) => (a, q)
      | none => (fragSplit.1, [])
    let pr := splitParams querySplit.1
    .ok { scheme := scheme, netloc := netloc, path := pr.1, params := pr.2,
          query := querySplit.2, fragment := fragSplit.2 }

/-! ## Heuristic URL scorer (`PhishingAnalyzer._heuristic_url_check` and helpers) -/

/-- The suspicious-domain regex literals of `_is_suspicious_domain`. -/
def suspiciousDomainPats : List String :=
  ["-secure-", "-verify-", "-confirm-", "-update-", "-login-",
   "paypal", "amazon", "apple", "google"]

/-- Case-insensitive substring search: model of `re.search(pat, s, re.IGNORECASE)`
    for a literal pattern. -/
def searchCI (pat : String) (s : List Char) : Bool :=
  containsSub (lowerL pat.data) (lowerL s)

/-- `_is_suspicious_domain`. -/
def isSuspiciousDomain (domain : List Char) : Bool :=
  suspiciousDomainPats.any (fun p => searchCI p domain)

/-- `_uses_ip_address`: the regex `^\d+\.\d+\.\d+\.\d+$`. -/
def usesIpAddress (domain : List Char) : Bool :=
  let parts := splitAll '.' domain
  parts.length = 4 && parts.all (fun p => !p.isEmpty && p.all Char.isDigit)

/-- The suspicious-path regex literals of `_has_suspicious_path`. -/
def suspiciousPathPats : List String :=
  ["verify", "confirm", "validate", "update", "secure"]

/-- `_has_suspicious_path`. -/
def hasSuspiciousPath (path : List Char) : Bool :=
  suspiciousPathPats.any (fun p => searchCI p path)

/-- Count of position-wise equal characters: `sum(c1 == c2 for c1, c2 in zip(..))`. -/
def countMatches : List Char → List Char → Nat
  | a :: as, b :: bs => (if a = b then 1 else 0) + countMatches as bs
  | _, _ => 0

/-- `_is_similar`: same length within 2 and >70% position-wise similarity.
    The source's `matches / max(len1, len2) > 0.7` is stated integrally as
    `10 * matches > 7 * max(len1, len2)`, which is the same exact comparison. -/
def isSimilar (s1 s2 : List Char) : Bool :=
  if ((s1.length : Int) - s2.length).natAbs > 2 then false
  else 10 * countMatches s1 s2 > 7 * max s1.length s2.length

/-- The legitimate-domain list of `_has_typosquatting_pattern`. -/
def legitimateDomains : List String :=
  ["google.com", "facebook.com", "amazon.com", "paypal.com"]

/-- `domain.split('.')[0]`. -/
def firstLabel (d : List Char) : List Char :=
  (splitAll '.' d).headD []

/-- `_has_typosquatting_pattern`. -/
def hasTyposquattingPattern (domain : List Char) : Bool :=
  legitimateDomains.any (fun legit => isSimilar (firstLabel domain) (firstLabel legit.data))

/-- Risk level from confidence (the threshold ladder in `_heuristic_url_check`). -/
def riskOf (confidence : Nat) : String :=
  if confidence ≥ 80 then "critical"
  else if confidence ≥ 60 then "high"
  else if confidence ≥ 40 then "medium"
  else if confidence ≥ 20 then "low"
  else "safe"

/-- Action from an integer confidence: `'block' if c >= 85 else ('warn' if c >= 50 else 'safe')`. -/
def actionOfNat (confidence : Nat) : String :=
  if confidence ≥ 85 then "block" else if confidence ≥ 50 then "warn" else "safe"

/-- Action from the fused rational confidence (same expression in `_combine_results`). -/
def actionOfQ (confidence : ℚ) : String :=
  if confidence ≥ 85 then "block" else if confidence ≥ 50 then "warn" else "safe"

/-- The result dict of `_heuristic_url_check` (all keys always present). -/
structure HeurResult where
  risk_level : String
  confidence : Nat
  reasoning : String
  action : String
  phishing_indicators : List String
deriving DecidableEq, Repr

/-- The dict returned by the `except` branch of `_heuristic_url_check`. -/
def degradedResult : HeurResult :=
  { risk_level := "unknown", confidence := 0, reasoning := "Analysis failed",
    action := "warn", phishing_indicators := [] }

/-- `PhishingAnalyzer._heuristic_url_check`. -/
def heuristicUrlCheck (url : String) : HeurResult :=
  match pyUrlparse url.data with
  | .error _ => degradedResult
  | .ok parsed =>
    let domain := parsed.netloc
    let c1 : Nat := if isSuspiciousDomain domain then 30 else 0
    let c2 : Nat := if usesIpAddress domain then 25 else 0
    let c3 : Nat := if startsWithL "https".data url.data then 0 else 20
    let c4 : Nat := if hasSuspiciousPath parsed.path then 15 else 0
    let c5 : Nat := if hasTyposquattingPattern domain then 25 else 0
    let confidence := c1 + c2 + c3 + c4 + c5
    let risk_factors : List String :=
      (if isSuspiciousDomain domain then ["Suspicious domain pattern"] else []) ++
      (if usesIpAddress domain then ["Using IP address instead of domain"] else []) ++
      (if startsWithL "https".data url.data then [] else ["Not using HTTPS"]) ++
      (if hasSuspiciousPath parsed.path then ["Suspicious URL path"] else []) ++
      (if hasTyposquattingPattern domain then ["Possible typosquatting"] else [])
    { risk_level := riskOf confidence,
      confidence := min confidence 100,
      reasoning := if risk_factors.isEmpty then "No suspicious patterns detected"
                   else joinStr "; " risk_factors,
      action := actionOfNat confidence,
      phishing_indicators := risk_factors }

/-! ## Form analyzer (`PhishingAnalyzer.analyze_form`) -/

structure FormDetails where
  form_action : String
  target_domain : String
  fields : List String
deriving DecidableEq, Repr

structure FormVerdict where
  risk_level : String
  confidence : Nat
  reasoning : String
  action : String
  details : FormDetails
deriving DecidableEq, Repr

/-- The sensitive field names checked by `analyze_form`. -/
def sensitiveFields : List String := ["password", "ssn", "credit_card"]

/-- `PhishingAnalyzer.analyze_form` (the `await`-free heuristic body). -/
def analyzeForm (url form_action _form_method : String) (fields : List String)
    (target_domain : String) : FormVerdict :=
  let differentDomain := !containsSub target_domain.data url.data
  let sensitive := sensitiveFields.any (fun f => fields.contains f)
  let confidence : Nat := (if differentDomain then 50 else 0) + (if sensitive then 30 else 0)
  let risk_factors : List String :=
    (if differentDomain then ["Form submits to different domain"] else []) ++
    (if sensitive then ["Form collects sensitive information"] else [])
  { risk_level := if confidence ≥ 50 then "high" else "medium",
    confidence := min confidence 100,
    reasoning := joinStr "; " risk_factors,
    action := if confidence ≥ 80 then "block" else "warn",
    details := { form_action := form_action, target_domain := target_domain,
                 fields := fields } }

/-! ## Fusion engine (`PhishingAnalyzer._combine_results`) -/

/-- The LLM-side dict passed to `_combine_results`: any of the keys read by the
    fusion engine may be absent (`llm.get(key, default)`). -/
structure LlmDict where
  risk_level : Option String
  confidence : Option ℚ
  reasoning : Option String
  indicators : Option (List String)
  error : Option String
deriving DecidableEq, Repr

/-- The typed failure dict `{"error": msg}` returned by `LLMService.analyze_text`
    when the remote call fails: every fused-in key is absent. -/
def errDict (msg : String) : LlmDict :=
  { risk_level := none, confidence := none, reasoning := none,
    indicators := none, error := some msg }

/-- The dict returned by `_combine_results`. -/
structure Verdict where
  risk_level : String
  confidence : ℚ
  reasoning : String
  action : String
  phishing_indicators : List String
deriving DecidableEq, Repr

/-- The ordered `risk_levels` list of `_combine_results`. -/
def riskLevels : List String := ["safe", "low", "medium", "high", "critical"]

/-- Model of Python `list.index` starting at position `k`: `none` where Python
    raises `ValueError`. -/
def pyIndexFrom (x : String) : Nat → List String → Option Nat
  | _, [] => none
  | k, y :: rest => if y = x then some k else pyIndexFrom x (k + 1) rest

/-- `xs.index(x)` as an `Option`. -/
def pyIndex (xs : List String) (x : String) : Option Nat := pyIndexFrom x 0 xs

/-- `PhishingAnalyzer._combine_results`.  `none` models the `ValueError`
    raised by `risk_levels.index(...)` on a level outside the enum. -/
def combineResults (heuristic : HeurResult) (llm : LlmDict) : Option Verdict :=
  let heur_confidence : ℚ := (heuristic.confidence : ℚ) * 0.4
  let llm_confidence : ℚ := llm.confidence.getD 0 * 0.6
  let combined_confidence := heur_confidence + llm_confidence
  match pyIndex riskLevels heuristic.risk_level,
        pyIndex riskLevels (llm.risk_level.getD "safe") with
  | some heur_level, some llm_level =>
    some { risk_level := riskLevels.getD (max heur_level llm_level) "",
           confidence := pyMin combined_confidence 100,
           reasoning := "Heuristic: " ++ heuristic.reasoning ++ " | LLM: " ++
                        llm.reasoning.getD "",
           action := actionOfQ combined_confidence,
           phishing_indicators := heuristic.phishing_indicators ++ llm.indicators.getD [] }
  | _, _ => none

/-! ## Content extractor (`PhishingAnalyzer._extract_text`)

`re.sub(r'<script[^>]*>.*?</script>', '', html, flags=re.DOTALL)` (and the
`style` twin) is modelled by `removeBlocksW`: scan left to right; at each
position try to match the opening tag (`opn`, then greedily `[^>]*`, then
`>`), then the non-greedy `.*?` up to the nearest closing literal; on a match
drop the whole block and continue after it, otherwise keep one character and
move on.  `re.sub(r'<[^>]+>', '', html)` is modelled by `removeTagsW` the
same way.  Both use structural fuel recursion (fuel = remaining length) so
that they evaluate inside the kernel. -/

/-- Match `opn ++ [^>]* ++ '>'` at the start of `s`; return the remainder. -/
def matchOpenTag (opn s : List Char) : Option (List Char) :=
  match dropLit opn s with
  | none => none
  | some rest =>
    match rest.dropWhile (fun c => !(c = '>')) with
    | [] => none
    | d :: r => if d = '>' then some r else none

/-- Remainder after the first occurrence of `pat` in `s` (the non-greedy
    `.*?pat`); `none` when `pat` does not occur. -/
def findSubSplit (pat : List Char) : List Char → Option (List Char)
  | [] => dropLit pat []
  | c :: rest =>
    match dropLit pat (c :: rest) with
    | some r => some r
    | none => findSubSplit pat rest

/-- Match one whole `opn[^>]*>.*?cls` block at the start of `s`. -/
def matchBlock (opn cls s : List Char) : Option (List Char) :=
  match matchOpenTag opn s with
  | none => none
  | some afterOpen => findSubSplit cls afterOpen

/-- Fuel-indexed block removal; `fuel ≥ s.length` makes the fuel invisible. -/
def removeBlocksF (opn cls : List Char) : Nat → List Char → List Char
  | _, [] => []
  | 0, s => s
  | fuel + 1, c :: rest =>
    match matchBlock opn cls (c :: rest) with
    | some remainder => removeBlocksF opn cls fuel remainder
    | none => c :: removeBlocksF opn cls fuel rest

/-- `re.sub(opn[^>]*>.*?cls, '', s, flags=re.DOTALL)`. -/
def removeBlocksW (opn cls s : List Char) : List Char :=
  removeBlocksF opn cls s.length s

/-- Match `<[^>]+>` at the start of `s`; return the remainder. -/
def matchTag : List Char → Option (List Char)
  | '<' :: d :: rest =>
    if d = '>' then none
    else
      match (d :: rest).dropWhile (fun c => !(c = '>')) with
      | '>' :: r => some r
      | _ => none
  | _ => none

/-- Fuel-indexed tag removal. -/
def removeTagsF : Nat → List Char → List Char
  | _, [] => []
  | 0, s => s
  | fuel + 1, c :: rest =>
    match matchTag (c :: rest) with
    | some r => removeTagsF fuel r
    | none => c :: removeTagsF fuel rest

/-- `re.sub(r'<[^>]+>', '', s)`. -/
def removeTagsW (s : List Char) : List Char := removeTagsF s.length s

/-- Python `str.split()` whitespace (ASCII). -/
def isPySpace (c : Char) : Bool :=
  c = ' ' || c = '\t' || c = '\n' || c = '\r' || c = '\x0b' || c = '\x0c'

/-- Accumulator-based model of `str.split()`: maximal runs of non-whitespace. -/
def pySplitWsAux (cur : List Char) : List Char → List (List Char)
  | [] => if cur.isEmpty then [] else [cur.reverse]
  | c :: rest =>
    if isPySpace c then
      if cur.isEmpty then pySplitWsAux [] rest
      else cur.reverse :: pySplitWsAux [] rest
    else pySplitWsAux (c :: cur) rest

/-- `str.split()` with no argument. -/
def pySplitWs (l : List Char) : List (List Char) := pySplitWsAux [] l

/-- `PhishingAnalyzer._extract_text`, on character lists:
    `' '.join(html.split())` after block/tag removal, truncated to 5000. -/
def extractText (html : List Char) : List Char :=
  let noScript := removeBlocksW "<script".data "</script>".data html
  let noStyle := removeBlocksW "<style".data "</style>".data noScript
  let noTags := removeTagsW noStyle
  (joinWith [' '] (pySplitWs noTags)).take 5000

/-! ## JSON values and a model of `json.loads`

`json.loads` is Python's standard JSON decoder; the model below covers the
grammar the LLM responses use: objects, arrays, strings with the single-letter
escapes, integer numerals, `true`/`false`/`null`.  Inputs outside this subset
(floats, `\uXXXX`) decode to an error, which the caller treats exactly like
any other `json.JSONDecodeError`.  Recursion is fuelled by the input length. -/

inductive Json where
  | str (s : String)
  | num (n : Int)
  | jbool (b : Bool)
  | jnull
  | arr (xs : List Json)
  | obj (kvs : List (String × Json))
deriving Repr

/-- JSON whitespace accepted between tokens. -/
def jsonWs (c : Char) : Bool := c = ' ' || c = '\t' || c = '\n' || c = '\r'

def skipWs (s : List Char) : List Char := s.dropWhile jsonWs

/-- Single-character string escapes. -/
def escChar (e : Char) : Option Char :=
  if e = '"' then some '"'
  else if e = '\\' then some '\\'
  else if e = '/' then some '/'
  else if e = 'n' then some '\n'
  else if e = 't' then some '\t'
  else if e = 'r' then some '\r'
  else if e = 'b' then some '\x08'
  else if e = 'f' then some '\x0c'
  else none

/-- Body of a JSON string after the opening quote, up to the closing quote. -/
def parseStringBody : Nat → List Char → Except String (List Char × List Char)
  | 0, _ => .error "Unterminated string"
  | _ + 1, [] => .error "Unterminated string"
  | fuel + 1, c :: rest =>
    if c = '"' then .ok ([], rest)
    else if c = '\\' then
      match rest with
      | [] => .error "Unterminated string"
      | e :: rest2 =>
        match escChar e with
        | some ec => (parseStringBody fuel rest2).map (fun p => (ec :: p.1, p.2))
        | none => .error "Invalid escape"
    else (parseStringBody fuel rest).map (fun p => (c :: p.1, p.2))

def digitsToNat (ds : List Char) : Nat :=
  ds.foldl (fun acc c => acc * 10 + (c.toNat - 48)) 0

/-- An integer numeral with optional leading minus. -/
def parseNumFrom (s : List Char) : Except String (Json × List Char) :=
  match s with
  | '-' :: rest =>
    let ds := rest.takeWhile Char.isDigit
    if ds.isEmpty then .error "Expecting value"
    else .ok (.num (-(digitsToNat ds : Int)), rest.dropWhile Char.isDigit)
  | _ =>
    let ds := s.takeWhile Char.isDigit
    if ds.isEmpty then .error "Expecting value"
    else .ok (.num (digitsToNat ds), s.dropWhile Char.isDigit)

mutual

/-- One JSON value, returning the unconsumed remainder. -/
def parseVal : Nat → List Char → Except String (Json × List Char)
  | 0, _ => .error "Too deeply nested"
  | fuel + 1, s =>
    match skipWs s with
    | [] => .error "Expecting value"
    | c :: rest =>
      if c = '\x7b' then
        match skipWs rest with
        | '\x7d' :: r2 => .ok (.obj [], r2)
        | r2 => (parseMembers fuel r2).map (fun p => (.obj p.1, p.2))
      else if c = '[' then
        match skipWs rest with
        | ']' :: r2 => .ok (.arr [], r2)
        | r2 => (parseItems fuel r2).map (fun p => (.arr p.1, p.2))
      else if c = '"' then
        (parseStringBody (rest.length + 1) rest).map (fun p => (.str ⟨p.1⟩, p.2))
      else if c = '-' || c.isDigit then parseNumFrom (c :: rest)
      else if startsWithL "true".data (c :: rest) then .ok (.jbool true, (c :: rest).drop 4)
      else if startsWithL "false".data (c :: rest) then .ok (.jbool false, (c :: rest).drop 5)
      else if startsWithL "null".data (c :: rest) then .ok (.jnull, (c :: rest).drop 4)
      else .error "Expecting value"

/-- `"key": value` pairs of an object body, consuming the closing brace. -/
def parseMembers : Nat → List Char → Except String (List (String × Json) × List Char)
  | 0, _ => .error "Too deeply nested"
  | fuel + 1, s =>
    match skipWs s with
    | '"' :: rest =>
      match parseStringBody (rest.length + 1) rest with
      | .error m => .error m
      | .ok (key, r2) =>
        match skipWs r2 with
        | ':' :: r3 =>
          match parseVal fuel r3 with
          | .error m => .error m
          | .ok (v, r4) =>
            match skipWs r4 with
            | ',' :: r5 => (parseMembers fuel r5).map (fun p => ((⟨key⟩, v) :: p.1, p.2))
            | '\x7d' :: r5 => .ok ([(⟨key⟩, v)], r5)
            | _ => .error "Expecting delimiter"
        | _ => .error "Expecting colon"
    | _ => .error "Expecting property name"

/-- Values of an array body, consuming the closing bracket. -/
def parseItems : Nat → List Char → Except String (List Json × List Char)
  | 0, _ => .error "Too deeply nested"
  | fuel + 1, s =>
    match parseVal fuel s with
    | .error m => .error m
    | .ok (v, r) =>
      match skipWs r with
      | ',' :: r2 => (parseItems fuel r2).map (fun p => (v :: p.1, p.2))
      | ']' :: r2 => .ok ([v], r2)
      | _ => .error "Expecting delimiter"

end

/-- `json.loads`: one value, then only trailing whitespace. -/
def jsonLoads (s : List Char) : Except String Json :=
  match parseVal (s.length + 1) s with
  | .error m => .error m
  | .ok (j, rest) => if (skipWs rest).isEmpty then .ok j else .error "Extra data"

/-! ## Response parser (`LLMService._parse_llm_response`) -/

/-- First index of `c` in `l`. -/
def firstIdxOf (c : Char) : List Char → Option Nat
  | [] => none
  | d :: rest => if d = c then some 0 else (firstIdxOf c rest).map (· + 1)

/-- Last index of `c` in `l` (first index in the reversal). -/
def lastIdxOf (c : Char) (l : List Char) : Option Nat :=
  match firstIdxOf c l.reverse with
  | some k => some (l.length - 1 - k)
  | none => none

/-- The span matched by `re.search(r'\x7b.*\x7d', text, re.DOTALL)`: from the
    first opening brace to the last closing brace, when the latter is further
    right. -/
def extractSpan (s : List Char) : Option (List Char) :=
  match firstIdxOf '\x7b' s, lastIdxOf '\x7d' s with
  | some i, some j => if i < j then some ((s.drop i).take (j - i + 1)) else none
  | _, _ => none

/-- The outcome of `_parse_llm_response` (and of `analyze_text`): either the
    decoded JSON dict, or the `{"error": msg}` dict. -/
inductive LlmRes where
  | parsed (j : Json)
  | errorDict (msg : String)
deriving Repr

/-- Span extraction plus decode applied to the generated text.  A decode
    exception is returned as `{"error": str(e)}` by the source's `except`
    branch; the decoder's message stands in for `str(e)`. -/
def parseGeneratedText (text : List Char) : LlmRes :=
  match extractSpan text with
  | some span =>
    match jsonLoads span with
    | .ok j => .parsed j
    | .error m => .errorDict m
  | none => .errorDict "Could not parse LLM response"

/-- One entry of the HF response list: a dict that may carry `generated_text`. -/
structure RespEntry where
  generated_text : Option String
deriving Repr

/-- The raw JSON body of a 200 response: a list, or a bare dict. -/
inductive PyResponse where
  | list (entries : List RespEntry)
  | dict (entry : RespEntry)
deriving Repr

/-- `response[0].get("generated_text", "")` / `response.get(...)`.  An empty
    list falls into the dict branch and raises `AttributeError`, caught by the
    enclosing `except` (the message stands in for `str(e)`). -/
def getGenText : PyResponse → Except String String
  | .list (e :: _) => .ok (e.generated_text.getD "")
  | .list [] => .error "list object has no attribute get"
  | .dict e => .ok (e.generated_text.getD "")

/-- `LLMService._parse_llm_response`. -/
def parseLlmResponse (response : PyResponse) : LlmRes :=
  match getGenText response with
  | .ok text => parseGeneratedText text.data
  | .error m => .errorDict m

/-! ## Remote classifier client (`LLMService.analyze_text`)

Each loop iteration's interaction with the network is abstracted as an
`Outcome`: an HTTP response with a status and (for 200) a parsed JSON body, a
transport failure (`aiohttp.ClientError`), or any other exception.  The
`for attempt in range(max_retries)` loop with `continue` becomes recursion
over the list of remaining attempt indices. -/

inductive Outcome where
  | http (status : Nat) (body : PyResponse)
  | clientErr (msg : String)
  | otherExc (msg : String)

/-- `max_retries = 2`. -/
def maxRetries : Nat := 2

/-- The body of the retry loop: `attempts` is the list of remaining attempt
    indices, `outs` gives the outcome of each attempt. -/
def runAttempts (outs : Nat → Outcome) : List Nat → LlmRes
  | [] => .errorDict "LLM analysis failed after retries"
  | attempt :: restAttempts =>
    match outs attempt with
    | .http status body =>
      if status = 200 then parseLlmResponse body
      else if status = 503 ∧ attempt < maxRetries - 1 then runAttempts outs restAttempts
      else .errorDict ("LLM analysis failed: " ++ toString status)
    | .clientErr msg =>
      if attempt < maxRetries - 1 then runAttempts outs restAttempts
      else .errorDict msg
    | .otherExc msg => .errorDict msg

/-- `LLMService.analyze_text`, as a function of the attempt outcomes. -/
def analyzeTextModel (outs : Nat → Outcome) : LlmRes :=
  runAttempts outs (List.range maxRetries)

/-! ## Facts about the risk-level order used by the fusion engine -/

lemma pyIndex_safe : pyIndex riskLevels "safe" = some 0 := by rfl

lemma pyIndex_low : pyIndex riskLevels "low" = some 1 := by rfl

lemma pyIndex_medium : pyIndex riskLevels "medium" = some 2 := by rfl

lemma pyIndex_high : pyIndex riskLevels "high" = some 3 := by rfl

lemma pyIndex_critical : pyIndex riskLevels "critical" = some 4 := by rfl

lemma mem_riskLevels_cases {x : String} (h : x ∈ riskLevels) :
    x = "safe" ∨ x = "low" ∨ x = "medium" ∨ x = "high" ∨ x = "critical" := by
  simpa [riskLevels] using h

lemma pyIndex_inv {x : String} {i : Nat} (h : pyIndex riskLevels x = some i) :
    riskLevels.getD i "" = x ∧ i ≤ 4 := by
  simp only [pyIndex, pyIndexFrom, riskLevels] at h
  split_ifs at h with h1 h2 h3 h4 h5
  · cases h; exact ⟨h1, by omega⟩
  · cases h; exact ⟨h2, by omega⟩
  · cases h; exact ⟨h3, by omega⟩
  · cases h; exact ⟨h4, by omega⟩
  · cases h; exact ⟨h5, by omega⟩

lemma pyIndex_getD {i : Nat} (h : i ≤ 4) :
    pyIndex riskLevels (riskLevels.getD i "") = some i := by
  interval_cases i <;> rfl

/-- On index success, `_combine_results` returns exactly this verdict. -/
lemma combine_some (h : HeurResult) (l : LlmDict) (hi li : Nat)
    (h1 : pyIndex riskLevels h.risk_level = some hi)
    (h2 : pyIndex riskLevels (l.risk_level.getD "safe") = some li) :
    combineResults h l = some
      { risk_level := riskLevels.getD (max hi li) "",
        confidence := pyMin ((h.confidence : ℚ) * 0.4 + l.confidence.getD 0 * 0.6) 100,
        reasoning := "Heuristic: " ++ h.reasoning ++ " | LLM: " ++ l.reasoning.getD "",
        action := actionOfQ ((h.confidence : ℚ) * 0.4 + l.confidence.getD 0 * 0.6),
        phishing_indicators := h.phishing_indicators ++ l.indicators.getD [] } := by
  simp only [combineResults, h1, h2]

lemma mem_pyIndex {x : String} (h : x ∈ riskLevels) :
    ∃ i, pyIndex riskLevels x = some i := by
  rcases mem_riskLevels_cases h with hl | hl | hl | hl | hl <;> rw [hl] <;> exact ⟨_, rfl⟩

lemma string_append_empty (s : String) : s ++ "" = s := by
  cases s with
  | mk d => exact congrArg String.mk (List.append_nil d)

lemma riskOf_mem (c : Nat) : riskOf c ∈ riskLevels := by
  unfold riskOf
  split_ifs <;> simp [riskLevels]

/-! ## Claims about the fusion engine -/

/-- C1: when the remote call failed, `_combine_results` applied to the typed
    failure dict `{"error": msg}` yields the heuristic-only verdict: the
    heuristic risk level, confidence `min(0.4 * h.confidence, 100)`, the
    reasoning `"Heuristic: <h.reasoning> | LLM: "` with an empty LLM part,
    exactly the heuristic indicators, and the action recomputed from the fused
    confidence `0.4 * h.confidence`. -/
theorem combine_degrades_on_llm_error (h : HeurResult) (msg : String)
    (hmem : h.risk_level ∈ riskLevels) :
    combineResults h (errDict msg) =
      some { risk_level := h.risk_level,
             confidence := pyMin (0.4 * (h.confidence : ℚ)) 100,
             reasoning := "Heuristic: " ++ h.reasoning ++ " | LLM: ",
             action := actionOfQ (0.4 * (h.confidence : ℚ)),
             phishing_indicators := h.phishing_indicators } := by
  obtain ⟨hi, hIdx⟩ := mem_pyIndex hmem
  have h2 : pyIndex riskLevels ((errDict msg).risk_level.getD "safe") = some 0 := by rfl
  rw [combine_some h (errDict msg) hi 0 hIdx h2]
  have e1 : (h.confidence : ℚ) * 0.4 + ((errDict msg).confidence.getD 0) * 0.6
      = 0.4 * (h.confidence : ℚ) := by
    simp [errDict]; ring
  rw [e1, Nat.max_zero, (pyIndex_inv hIdx).1]
  simp [errDict, string_append_empty]

theorem combine_degrades_on_llm_error_witness :
    combineResults { risk_level := "high", confidence := 65, reasoning := "r",
                     action := "warn", phishing_indicators := ["i"] } (errDict "boom") =
      some { risk_level := "high", confidence := pyMin (0.4 * ((65 : Nat) : ℚ)) 100,
             reasoning := "Heuristic: r | LLM: ",
             action := actionOfQ (0.4 * ((65 : Nat) : ℚ)),
             phishing_indicators := ["i"] } :=
  combine_degrades_on_llm_error _ "boom" (by decide)

/-- C2: when both risk levels lie in the ordered enum, the fused verdict
    exists and its level's rank is the max of the two input ranks, hence at
    least either input's rank. -/
theorem combine_level_conservative (h : HeurResult) (l : LlmDict) (lv : String)
    (hi li : Nat) (hl : l.risk_level = some lv)
    (hhi : pyIndex riskLevels h.risk_level = some hi)
    (hli : pyIndex riskLevels lv = some li) :
    ∃ v, combineResults h l = some v ∧
      pyIndex riskLevels v.risk_level = some (max hi li) ∧
      hi ≤ max hi li ∧ li ≤ max hi li := by
  have h2 : pyIndex riskLevels (l.risk_level.getD "safe") = some li := by
    rw [hl]; exact hli
  refine ⟨_, combine_some h l hi li hhi h2, ?_, le_max_left _ _, le_max_right _ _⟩
  have hb : max hi li ≤ 4 := by
    have b1 := (pyIndex_inv hhi).2
    have b2 := (pyIndex_inv hli).2
    omega
  exact pyIndex_getD hb

theorem combine_level_conservative_witness :
    ∃ v, combineResults
        { risk_level := "medium", confidence := 10, reasoning := "r", action := "safe",
          phishing_indicators := [] }
        { risk_level := some "high", confidence := some 50, reasoning := some "lr",
          indicators := some ["a"], error := none } = some v ∧
      pyIndex riskLevels v.risk_level = some (max 2 3) ∧ 2 ≤ max 2 3 ∧ 3 ≤ max 2 3 :=
  combine_level_conservative _ _ "high" 2 3 rfl rfl rfl

/-- C3: the degraded heuristic result (risk level `"unknown"`, reachable, e.g.
    from the `ValueError` that `urlparse` raises on `"http://[::1"`) makes
    `_combine_results` raise `ValueError` (`'unknown' is not in list`) instead
    of returning a verdict: the fusion core does not always produce a verdict. -/
theorem combine_raises_on_degraded_heuristic :
    heuristicUrlCheck "http://[::1" = degradedResult ∧
    combineResults degradedResult (errDict "LLM analysis failed: 503") = none :=
  ⟨rfl, rfl⟩

def c4Heur : HeurResult :=
  { risk_level := "safe", confidence := 0, reasoning := "", action := "safe",
    phishing_indicators := [] }

def c4Llm : LlmDict :=
  { risk_level := some "unknown", confidence := none, reasoning := none,
    indicators := none, error := none }

/-- C4 counterexample: an LLM dict whose `risk_level` is present but outside
    the enum does not get treated as `safe`; `risk_levels.index` raises
    (`none` here), so no verdict with the heuristic's level is produced. -/
theorem combine_unknown_level_counterexample :
    combineResults c4Heur c4Llm = none ∧
    ¬ ∃ v, combineResults c4Heur c4Llm = some v ∧ v.risk_level = c4Heur.risk_level := by
  refine ⟨rfl, ?_⟩
  rintro ⟨v, hv, -⟩
  have h0 : combineResults c4Heur c4Llm = none := rfl
  rw [h0] at hv
  cases hv

/-- C4 amended: only when the LLM dict's `risk_level` key is missing is
    `safe` substituted, and then the fused risk level equals the heuristic's. -/
theorem combine_missing_llm_level (h : HeurResult) (l : LlmDict)
    (hmem : h.risk_level ∈ riskLevels) (hl : l.risk_level = none) :
    ∃ v, combineResults h l = some v ∧ v.risk_level = h.risk_level := by
  obtain ⟨hi, hIdx⟩ := mem_pyIndex hmem
  have h2 : pyIndex riskLevels (l.risk_level.getD "safe") = some 0 := by rw [hl]; rfl
  refine ⟨_, combine_some h l hi 0 hIdx h2, ?_⟩
  show riskLevels.getD (max hi 0) "" = h.risk_level
  rw [Nat.max_zero]
  exact (pyIndex_inv hIdx).1

theorem combine_missing_llm_level_witness :
    ∃ v, combineResults
        { risk_level := "high", confidence := 65, reasoning := "r", action := "warn",
          phishing_indicators := [] }
        { risk_level := none, confidence := some 20, reasoning := some "x",
          indicators := some [], error := none } = some v ∧
      v.risk_level = "high" :=
  combine_missing_llm_level _ _ (by decide) rfl

/-! ## Claims about the heuristic scorer and form analyzer -/

/-- C5: `_heuristic_url_check` always returns a well-formed result (its level
    is `"unknown"` or an enum level, its confidence is capped at 100), and on
    any input whose parse raises it returns exactly the degraded
    zero-confidence/unknown-risk dict. -/
theorem heuristic_total_and_degrades (url : String) :
    ((heuristicUrlCheck url).risk_level = "unknown" ∨
      (heuristicUrlCheck url).risk_level ∈ riskLevels) ∧
    (heuristicUrlCheck url).confidence ≤ 100 ∧
    (∀ e, pyUrlparse url.data = .error e → heuristicUrlCheck url = degradedResult) := by
  refine ⟨?_, ?_, ?_⟩
  · rcases hp : pyUrlparse url.data with e | parsed
    · simp only [heuristicUrlCheck, hp]
      exact Or.inl rfl
    · simp only [heuristicUrlCheck, hp]
      exact Or.inr (riskOf_mem _)
  · rcases hp : pyUrlparse url.data with e | parsed
    · simp only [heuristicUrlCheck, hp]
      decide
    · simp only [heuristicUrlCheck, hp]
      exact Nat.min_le_right _ _
  · intro e he
    simp [heuristicUrlCheck, he]

theorem heuristic_total_and_degrades_witness :
    heuristicUrlCheck "http://[::1" = degradedResult ∧
    (heuristicUrlCheck "http://[::1").confidence ≤ 100 :=
  ⟨(heuristic_total_and_degrades "http://[::1").2.2 "Invalid IPv6 URL" rfl,
   (heuristic_total_and_degrades "http://[::1").2.1⟩

/-- C6: on `"http://paypal-secure-login.com/verify"` the heuristic fires
    exactly the suspicious-domain, non-HTTPS and suspicious-path rules; both
    the `paypal` and `-secure-` patterns match the domain, yet the domain rule
    contributes its 30 points once, so the confidence is 65, the level
    `"high"` and the action `"warn"`. -/
theorem heuristic_paypal_scenario :
    searchCI "paypal" "paypal-secure-login.com".data = true ∧
    searchCI "-secure-" "paypal-secure-login.com".data = true ∧
    heuristicUrlCheck "http://paypal-secure-login.com/verify" =
      { risk_level := "high", confidence := 65,
        reasoning := "Suspicious domain pattern; Not using HTTPS; Suspicious URL path",
        action := "warn",
        phishing_indicators := ["Suspicious domain pattern", "Not using HTTPS",
                                "Suspicious URL path"] } :=
  ⟨rfl, rfl, rfl⟩

/-- C10: `analyze_form` never returns a level below `"medium"` or an action
    outside `warn`/`block`; a form whose target domain occurs in the URL and
    whose fields include no sensitive name gets exactly risk `"medium"`,
    confidence 0, empty reasoning and action `"warn"`. -/
theorem analyze_form_floor :
    (∀ url fa fm fields td,
       ((analyzeForm url fa fm fields td).risk_level = "medium" ∨
        (analyzeForm url fa fm fields td).risk_level = "high") ∧
       ((analyzeForm url fa fm fields td).action = "warn" ∨
        (analyzeForm url fa fm fields td).action = "block")) ∧
    (∀ url fa fm fields td,
       containsSub td.data url.data = true →
       sensitiveFields.any (fun f => fields.contains f) = false →
       analyzeForm url fa fm fields td =
         { risk_level := "medium", confidence := 0, reasoning := "", action := "warn",
           details := { form_action := fa, target_domain := td, fields := fields } }) := by
  constructor
  · intro url fa fm fields td
    simp only [analyzeForm]
    split_ifs <;> simp_all
  · intro url fa fm fields td h1 h2
    simp only [analyzeForm, h1, h2]
    rfl

theorem analyze_form_floor_witness :
    analyzeForm "https://example.com/login" "https://example.com/submit" "post"
        ["username", "note"] "example.com" =
      { risk_level := "medium", confidence := 0, reasoning := "", action := "warn",
        details := { form_action := "https://example.com/submit",
                     target_domain := "example.com", fields := ["username", "note"] } } :=
  analyze_form_floor.2 _ _ _ _ _ rfl rfl

/-! ## Claims about the remote classifier client -/

lemma parseLlmResponse_total (b : PyResponse) :
    (∃ j, parseLlmResponse b = .parsed j) ∨ (∃ m, parseLlmResponse b = .errorDict m) := by
  rcases hb : parseLlmResponse b with j | m
  · exact Or.inl ⟨j, rfl⟩
  · exact Or.inr ⟨m, rfl⟩

lemma runAttempts_total (outs : Nat → Outcome) (attempts : List Nat) :
    (∃ j, runAttempts outs attempts = .parsed j) ∨
    (∃ m, runAttempts outs attempts = .errorDict m) := by
  induction attempts with
  | nil => exact Or.inr ⟨_, rfl⟩
  | cons a rest ih =>
    rcases ho : outs a with ⟨s, b⟩ | ⟨m⟩ | ⟨m⟩
    · by_cases h200 : s = 200
      · simp only [runAttempts, ho, h200, if_pos]
        exact parseLlmResponse_total b
      · by_cases h503 : s = 503 ∧ a < maxRetries - 1
        · simpa only [runAttempts, ho, h200, h503, if_neg, if_pos, if_true, if_false,
            reduceIte] using ih
        · simp only [runAttempts, ho]
          rw [if_neg h200, if_neg h503]
          exact Or.inr ⟨_, rfl⟩
    · by_cases hlt : a < maxRetries - 1
      · simpa only [runAttempts, ho, if_pos hlt] using ih
      · simp only [runAttempts, ho, if_neg hlt]
        exact Or.inr ⟨_, rfl⟩
    · simp only [runAttempts, ho]
      exact Or.inr ⟨_, rfl⟩

/-- C7: `analyze_text` never raises: every attempt-outcome pattern yields a
    value (a parsed dict or an `{"error": ...}` dict).  A 503 on the first of
    the two attempts is retried and the second outcome decides the result; a
    503 on the final attempt, any other non-200 status, a transport error on
    the final attempt, and any unexpected exception each yield the typed
    failure dict. -/
theorem analyze_text_never_raises :
    (∀ outs, (∃ j, analyzeTextModel outs = .parsed j) ∨
             (∃ m, analyzeTextModel outs = .errorDict m)) ∧
    (∀ outs b0 b1, outs 0 = .http 503 b0 → outs 1 = .http 503 b1 →
       analyzeTextModel outs = .errorDict "LLM analysis failed: 503") ∧
    (∀ outs b0 b, outs 0 = .http 503 b0 → outs 1 = .http 200 b →
       analyzeTextModel outs = parseLlmResponse b) ∧
    (∀ outs s b, outs 0 = .http s b → s ≠ 200 → s ≠ 503 →
       analyzeTextModel outs = .errorDict ("LLM analysis failed: " ++ toString s)) ∧
    (∀ outs m0 m1, outs 0 = .clientErr m0 → outs 1 = .clientErr m1 →
       analyzeTextModel outs = .errorDict m1) ∧
    (∀ outs m, outs 0 = .otherExc m → analyzeTextModel outs = .errorDict m) := by
  refine ⟨fun outs => runAttempts_total outs _, ?_, ?_, ?_, ?_, ?_⟩
  · intro outs b0 b1 h0 h1
    simp [analyzeTextModel, show List.range maxRetries = [0, 1] from rfl,
      runAttempts, h0, h1, maxRetries]
    decide
  · intro outs b0 b h0 h1
    simp [analyzeTextModel, show List.range maxRetries = [0, 1] from rfl,
      runAttempts, h0, h1, maxRetries]
  · intro outs s b h0 hs200 hs503
    simp [analyzeTextModel, show List.range maxRetries = [0, 1] from rfl,
      runAttempts, h0, hs200, hs503]
  · intro outs m0 m1 h0 h1
    simp [analyzeTextModel, show List.range maxRetries = [0, 1] from rfl,
      runAttempts, h0, h1, maxRetries]
  · intro outs m h0
    simp [analyzeTextModel, show List.range maxRetries = [0, 1] from rfl,
      runAttempts, h0]

theorem analyze_text_never_raises_witness :
    analyzeTextModel (fun _ => .http 503 (.list [])) =
      .errorDict "LLM analysis failed: 503" :=
  analyze_text_never_raises.2.1 _ _ _ rfl rfl

/-! ## Claims about the response parser -/

lemma firstIdxOf_none {c : Char} {l : List Char} (h : ∀ x ∈ l, x ≠ c) :
    firstIdxOf c l = none := by
  induction l with
  | nil => rfl
  | cons d rest ih =>
    have hd : d ≠ c := h d (by simp)
    simp [firstIdxOf, hd, ih (fun x hx => h x (List.mem_cons_of_mem _ hx))]

lemma firstIdxOf_append {c : Char} {pre rest : List Char} (h : ∀ x ∈ pre, x ≠ c) :
    firstIdxOf c (pre ++ c :: rest) = some pre.length := by
  induction pre with
  | nil => simp [firstIdxOf]
  | cons d pre ih =>
    have hd : d ≠ c := h d (by simp)
    simp [firstIdxOf, hd, ih (fun x hx => h x (List.mem_cons_of_mem _ hx))]

lemma extractSpan_none {t : List Char} (h : ∀ x ∈ t, x ≠ '\x7b') :
    extractSpan t = none := by
  simp [extractSpan, firstIdxOf_none h]

lemma extractSpan_decomp {pre mid post : List Char}
    (h1 : ∀ x ∈ pre, x ≠ '\x7b') (h2 : ∀ x ∈ post, x ≠ '\x7d') :
    extractSpan (pre ++ '\x7b' :: (mid ++ '\x7d' :: post)) =
      some ('\x7b' :: (mid ++ ['\x7d'])) := by
  have hf : firstIdxOf '\x7b' (pre ++ '\x7b' :: (mid ++ '\x7d' :: post)) = some pre.length :=
    firstIdxOf_append h1
  have hrev : (pre ++ '\x7b' :: (mid ++ '\x7d' :: post)).reverse
      = post.reverse ++ '\x7d' :: (mid.reverse ++ '\x7b' :: pre.reverse) := by
    simp
  have hfr : firstIdxOf '\x7d' ((pre ++ '\x7b' :: (mid ++ '\x7d' :: post)).reverse)
      = some post.reverse.length := by
    rw [hrev]
    exact firstIdxOf_append (fun x hx => h2 x (List.mem_reverse.mp hx))
  have hlen : (pre ++ '\x7b' :: (mid ++ '\x7d' :: post)).length
      = pre.length + mid.length + post.length + 2 := by
    simp only [List.length_append, List.length_cons]
    omega
  have hlast : lastIdxOf '\x7d' (pre ++ '\x7b' :: (mid ++ '\x7d' :: post))
      = some (pre.length + mid.length + 1) := by
    simp only [lastIdxOf, hfr, List.length_reverse, hlen]
    congr 1
    omega
  simp only [extractSpan, hf, hlast]
  rw [if_pos (by omega)]
  have hd : (pre ++ '\x7b' :: (mid ++ '\x7d' :: post)).drop pre.length
      = '\x7b' :: (mid ++ '\x7d' :: post) := List.drop_left pre _
  rw [hd]
  have harith : pre.length + mid.length + 1 - pre.length + 1 = mid.length + 2 := by omega
  rw [harith]
  have hsplit : '\x7b' :: (mid ++ '\x7d' :: post) = ('\x7b' :: (mid ++ ['\x7d'])) ++ post := by
    simp
  rw [hsplit]
  exact congrArg some (List.take_left' (by simp))

/-- The scenario response text: prose followed by one JSON object. -/
def llmScenarioText : String :=
  "Sure! \x7b\"risk_level\":\"high\",\"confidence\":90,\"reasoning\":\"urgent request\",\"indicators\":[\"urgency\"]\x7d"

/-- C8: `_parse_llm_response` takes the span from the first opening brace to
    the last closing brace (greedily, across newlines) and JSON-decodes it;
    with no such span it returns the error dict, and a decode failure also
    yields an error dict; on prose followed by exactly one JSON object it
    returns exactly that decoded object. -/
theorem parse_llm_response_spec :
    (∀ t : List Char, (∀ x ∈ t, x ≠ '\x7b') →
       parseGeneratedText t = .errorDict "Could not parse LLM response") ∧
    (∀ pre mid post : List Char,
       (∀ x ∈ pre, x ≠ '\x7b') → (∀ x ∈ post, x ≠ '\x7d') →
       parseGeneratedText (pre ++ '\x7b' :: (mid ++ '\x7d' :: post)) =
         match jsonLoads ('\x7b' :: (mid ++ ['\x7d'])) with
         | .ok j => .parsed j
         | .error m => .errorDict m) ∧
    parseLlmResponse (.list [{ generated_text := some llmScenarioText }]) =
      .parsed (Json.obj [("risk_level", .str "high"), ("confidence", .num 90),
        ("reasoning", .str "urgent request"), ("indicators", .arr [.str "urgency"])]) := by
  refine ⟨?_, ?_, ?_⟩
  · intro t h
    simp [parseGeneratedText, extractSpan_none h]
  · intro pre mid post hpre hpost
    simp only [parseGeneratedText, extractSpan_decomp hpre hpost]
  · rfl

theorem parse_llm_response_spec_witness :
    parseGeneratedText "no json here".data = .errorDict "Could not parse LLM response" ∧
    parseGeneratedText ("ab".data ++ '\x7b' :: ("\"k\":1".data ++ '\x7d' :: "cd".data)) =
      (match jsonLoads ('\x7b' :: ("\"k\":1".data ++ ['\x7d'])) with
       | .ok j => .parsed j
       | .error m => .errorDict m) :=
  ⟨parse_llm_response_spec.1 _ (by decide),
   parse_llm_response_spec.2.1 _ _ _ (by decide) (by decide)⟩

/-! ## Claims about the content extractor -/

lemma dropWhile_len_le (p : Char → Bool) (l : List Char) :
    (l.dropWhile p).length ≤ l.length := by
  induction l with
  | nil => simp
  | cons a rest ih =>
    rw [List.dropWhile_cons]
    split_ifs
    · exact ih.trans (by simp)
    · simp

lemma dropLit_len {pat s r : List Char} (h : dropLit pat s = some r) :
    r.length ≤ s.length := by
  induction pat generalizing s with
  | nil =>
    simp only [dropLit, Option.some.injEq] at h
    subst h
    exact le_refl _
  | cons a as ih =>
    cases s with
    | nil => simp [dropLit] at h
    | cons b bs =>
      simp only [dropLit] at h
      split_ifs at h with hab
      have := ih h
      simp only [List.length_cons]
      omega

lemma matchOpenTag_len {opn s r : List Char} (h : matchOpenTag opn s = some r) :
    r.length < s.length := by
  unfold matchOpenTag at h
  cases hd : dropLit opn s with
  | none => simp [hd] at h
  | some rest =>
    simp only [hd] at h
    cases hw : rest.dropWhile (fun c => !(c = '>')) with
    | nil => simp [hw] at h
    | cons d tail =>
      simp only [hw] at h
      split_ifs at h with hdq
      have htr := Option.some.inj h
      subst htr
      have h1 : tail.length + 1 ≤ rest.length := by
        have h2 := dropWhile_len_le (fun c => !(c = '>')) rest
        rw [hw] at h2
        simpa using h2
      have h3 : rest.length ≤ s.length := dropLit_len hd
      omega

lemma findSubSplit_len {pat s r : List Char} (h : findSubSplit pat s = some r) :
    r.length ≤ s.length := by
  induction s with
  | nil => exact dropLit_len h
  | cons c rest ih =>
    simp only [findSubSplit] at h
    cases hd : dropLit pat (c :: rest) with
    | some r2 =>
      simp only [hd] at h
      cases h
      exact dropLit_len hd
    | none =>
      simp only [hd] at h
      exact (ih h).trans (by simp)

lemma matchBlock_len {opn cls s r : List Char} (h : matchBlock opn cls s = some r) :
    r.length < s.length := by
  unfold matchBlock at h
  cases ho : matchOpenTag opn s with
  | none => simp [ho] at h
  | some a =>
    simp only [ho] at h
    exact lt_of_le_of_lt (findSubSplit_len h) (matchOpenTag_len ho)

lemma removeBlocksF_nil (opn cls : List Char) (fuel : Nat) :
    removeBlocksF opn cls fuel [] = [] := by
  cases fuel <;> rfl

lemma removeBlocksF_congr (opn cls : List Char) :
    ∀ f g s, s.length ≤ f → s.length ≤ g →
      removeBlocksF opn cls f s = removeBlocksF opn cls g s := by
  intro f
  induction f with
  | zero =>
    intro g s hf hg
    have hs : s = [] := List.eq_nil_of_length_eq_zero (Nat.le_zero.mp hf)
    subst hs
    rw [removeBlocksF_nil, removeBlocksF_nil]
  | succ f ih =>
    intro g s hf hg
    cases s with
    | nil => rw [removeBlocksF_nil, removeBlocksF_nil]
    | cons c rest =>
      cases g with
      | zero => simp at hg
      | succ g =>
        simp only [List.length_cons] at hf hg
        cases hm : matchBlock opn cls (c :: rest) with
        | some rem =>
          have hlt := matchBlock_len hm
          simp only [List.length_cons] at hlt
          simp only [removeBlocksF, hm]
          exact ih g rem (by omega) (by omega)
        | none =>
          simp only [removeBlocksF, hm]
          exact congrArg (c :: ·) (ih g rest (by omega) (by omega))

lemma removeBlocksW_cons (opn cls : List Char) (c : Char) (rest : List Char) :
    removeBlocksW opn cls (c :: rest) =
      match matchBlock opn cls (c :: rest) with
      | some rem => removeBlocksW opn cls rem
      | none => c :: removeBlocksW opn cls rest := by
  unfold removeBlocksW
  cases hm : matchBlock opn cls (c :: rest) with
  | some rem =>
    have hlt := matchBlock_len hm
    simp only [List.length_cons] at hlt
    simp only [List.length_cons, removeBlocksF, hm]
    exact removeBlocksF_congr opn cls rest.length rem.length rem (by omega) (le_refl _)
  | none =>
    simp only [List.length_cons, removeBlocksF, hm]

lemma removeBlocksW_match {opn cls s rem : List Char} (c : Char) (rest : List Char)
    (hs : s = c :: rest) (hm : matchBlock opn cls s = some rem) :
    removeBlocksW opn cls s = removeBlocksW opn cls rem := by
  subst hs
  rw [removeBlocksW_cons, hm]

lemma dropLit_self_append (p q : List Char) : dropLit p (p ++ q) = some q := by
  induction p with
  | nil => rfl
  | cons a as ih => simp [dropLit, ih]

lemma dropLit_eq_append {A S R : List Char} (h : dropLit A S = some R) : S = A ++ R := by
  induction A generalizing S with
  | nil =>
    simp only [dropLit, Option.some.injEq] at h
    rw [h, List.nil_append]
  | cons a as ih =>
    cases S with
    | nil => simp [dropLit] at h
    | cons b bs =>
      simp only [dropLit] at h
      split_ifs at h with hab
      rw [List.cons_append, hab, ih h]

lemma dropLit_extend {P Q B R : List Char} (h : dropLit P Q = some R) :
    dropLit P (Q ++ B) = some (R ++ B) := by
  induction P generalizing Q with
  | nil =>
    simp only [dropLit, Option.some.injEq] at h ⊢
    rw [h]
  | cons a as ih =>
    cases Q with
    | nil => simp [dropLit] at h
    | cons b bs =>
      simp only [dropLit] at h ⊢
      split_ifs at h with hab
      rw [if_pos hab]
      exact ih h

/-- A successful literal match against `A ++ B` either lies within `A`, or
    consumes all of `A` and continues into `B`. -/
lemma dropLit_append_cases {P A B r : List Char} (h : dropLit P (A ++ B) = some r) :
    (∃ rA, dropLit P A = some rA) ∨
    (∃ Pt, dropLit A P = some Pt ∧ dropLit Pt B = some r) := by
  induction P generalizing A with
  | nil => exact Or.inl ⟨A, rfl⟩
  | cons p P' ih =>
    cases A with
    | nil =>
      refine Or.inr ⟨p :: P', rfl, ?_⟩
      simpa using h
    | cons a A' =>
      rw [List.cons_append] at h
      simp only [dropLit] at h ⊢
      split_ifs at h with hpa
      rcases ih h with ⟨rA, hrA⟩ | ⟨Pt, h1, h2⟩
      · exact Or.inl ⟨rA, by rw [if_pos hpa]; exact hrA⟩
      · exact Or.inr ⟨Pt, by rw [if_pos hpa.symm]; exact h1, h2⟩

lemma containsSub_of_dropLit {P A : List Char} (h : (dropLit P A).isSome = true) :
    containsSub P A = true := by
  cases A with
  | nil => simpa [containsSub] using h
  | cons c rest => simp [containsSub, h]

lemma containsSub_suffix {P q A : List Char} (hq : q <:+ A)
    (h : containsSub P q = true) : containsSub P A = true := by
  obtain ⟨t, rfl⟩ := hq
  induction t with
  | nil => simpa using h
  | cons x t ih => simp [containsSub, ih]

lemma containsSub_nil_pat (L : List Char) : containsSub [] L = true := by
  cases L <;> simp [containsSub, dropLit]

lemma containsSub_append_left {P A : List Char} (B : List Char)
    (h : containsSub P A = true) : containsSub P (A ++ B) = true := by
  induction A with
  | nil =>
    simp only [containsSub] at h
    cases P with
    | nil => exact containsSub_nil_pat B
    | cons p P' => simp [dropLit] at h
  | cons x A' ih =>
    simp only [containsSub, Bool.or_eq_true] at h
    rcases h with h | h
    · obtain ⟨R, hR⟩ := Option.isSome_iff_exists.mp h
      have hEx := @dropLit_extend P (x :: A') B R hR
      rw [List.cons_append] at hEx
      rw [List.cons_append]
      exact containsSub_of_dropLit (by simp [hEx])
    · rw [List.cons_append]
      simp [containsSub, ih h]

/-- If the pattern starts with `'<'` and has no other `'<'`, then it cannot
    match starting inside a pattern-free block `A` that is followed by text
    beginning with `'<'`: any such match would either lie inside `A` or would
    need a second `'<'` inside the pattern at the crossover point. -/
lemma no_tag_start {P Ptl A rest r : List Char} (hP : P = '<' :: Ptl)
    (hlt : '<' ∉ Ptl) (hA : containsSub P A = false) (hne : A ≠ [])
    (h : dropLit P (A ++ '<' :: rest) = some r) : False := by
  rcases dropLit_append_cases h with ⟨rA, hrA⟩ | ⟨Pt, h1, h2⟩
  · rw [containsSub_of_dropLit (by simp [hrA])] at hA
    cases hA
  · have hPA : P = A ++ Pt := dropLit_eq_append h1
    cases Pt with
    | nil =>
      rw [List.append_nil] at hPA
      subst hPA
      have : dropLit P P = some [] := by
        have := dropLit_self_append P []
        rwa [List.append_nil] at this
      rw [containsSub_of_dropLit (by simp [this])] at hA
      cases hA
    | cons t Pt' =>
      have ht : t = '<' := by
        simp only [dropLit] at h2
        split_ifs at h2 with h3
        exact h3
      cases A with
      | nil => exact hne rfl
      | cons a A' =>
        rw [hP, List.cons_append] at hPA
        have htl : Ptl = A' ++ t :: Pt' := (List.cons.injEq _ _ _ _).mp hPA |>.2
        exact hlt (htl ▸ List.mem_append_right A' (ht ▸ List.mem_cons_self t Pt'))

lemma matchBlock_of_dropLit_none {opn cls s : List Char}
    (h : dropLit opn s = none) : matchBlock opn cls s = none := by
  unfold matchBlock matchOpenTag
  rw [h]

/-- The removal scan walks over a prefix untouched as long as no opening-tag
    match can start inside it. -/
lemma removeBlocksW_prescan (opn cls : List Char) (pre X : List Char)
    (h : ∀ q, q <:+ pre → q ≠ [] → dropLit opn (q ++ X) = none) :
    removeBlocksW opn cls (pre ++ X) = pre ++ removeBlocksW opn cls X := by
  induction pre with
  | nil => simp
  | cons c pre ih =>
    have hd : dropLit opn ((c :: pre) ++ X) = none :=
      h (c :: pre) (List.suffix_refl _) (by simp)
    rw [List.cons_append] at hd ⊢
    rw [removeBlocksW_cons, matchBlock_of_dropLit_none hd]
    show c :: removeBlocksW opn cls (pre ++ X)
        = c :: (pre ++ removeBlocksW opn cls X)
    exact congrArg (c :: ·)
      (ih (fun q hq hne => h q (hq.trans (List.suffix_cons c pre)) hne))

/-- No `"<script"` match can start inside `pre` when `pre` itself contains
    none and the text after `pre` begins with `'<'`. -/
lemma prescan_block {P Ptl : List Char} (hP : P = '<' :: Ptl) (hlt : '<' ∉ Ptl)
    {pre : List Char} (hpre : containsSub P pre = false) (X Xrest : List Char)
    (hX : X = '<' :: Xrest) :
    ∀ q, q <:+ pre → q ≠ [] → dropLit P (q ++ X) = none := by
  subst hX
  intro q hq hne
  cases hd : dropLit P (q ++ '<' :: Xrest) with
  | none => rfl
  | some r =>
    exfalso
    refine no_tag_start hP hlt ?_ hne hd
    cases hcq : containsSub P q with
    | false => rfl
    | true =>
      rw [containsSub_suffix hq hcq] at hpre
      cases hpre

/-- No pattern match can start inside `pre` of `pre ++ post` when the whole
    concatenation is pattern-free. -/
lemma prescan_append {P pre post : List Char}
    (hpp : containsSub P (pre ++ post) = false) :
    ∀ q, q <:+ pre → q ≠ [] → dropLit P (q ++ post) = none := by
  intro q hq hne
  cases hd : dropLit P (q ++ post) with
  | none => rfl
  | some r =>
    exfalso
    have h1 : containsSub P (q ++ post) = true := containsSub_of_dropLit (by simp [hd])
    have h2 : (q ++ post) <:+ (pre ++ post) := by
      obtain ⟨t, rfl⟩ := hq
      exact ⟨t, by rw [List.append_assoc]⟩
    rw [containsSub_suffix h2 h1] at hpp
    cases hpp

/-- `<script[^>]*>` matches an attributed opening tag whose attribute text
    contains no `'>'`, consuming exactly up to the first `'>'`. -/
lemma dropWhile_append_gt (rest : List Char) :
    ∀ attrs : List Char, '>' ∉ attrs →
      (attrs ++ '>' :: rest).dropWhile (fun c => !(c = '>')) = '>' :: rest := by
  intro attrs
  induction attrs with
  | nil =>
    intro _
    simp [List.dropWhile_cons]
  | cons a as ih =>
    intro hattrs
    have ha : a ≠ '>' := by
      rintro rfl
      exact hattrs (List.mem_cons_self _ _)
    rw [List.cons_append, List.dropWhile_cons]
    simp only [ha, decide_False, Bool.not_false, if_true]
    exact ih (fun hmem => hattrs (List.mem_cons_of_mem _ hmem))

lemma matchOpenTag_attrs (attrs rest : List Char) (hattrs : '>' ∉ attrs) :
    matchOpenTag "<script".data ("<script".data ++ (attrs ++ '>' :: rest))
      = some rest := by
  unfold matchOpenTag
  rw [dropLit_self_append]
  show (match (attrs ++ '>' :: rest).dropWhile (fun c => !(c = '>')) with
        | [] => none
        | d :: r => if d = '>' then some r else none) = some rest
  rw [dropWhile_append_gt rest attrs hattrs]
  simp

/-- The non-greedy `.*?</script>` stops at the block's own closing tag when
    the body contains no `"</script>"` of its own. -/
lemma findSubSplit_noContain (post : List Char) {c : List Char}
    (hc : containsSub "</script>".data c = false) :
    findSubSplit "</script>".data (c ++ ("</script>".data ++ post)) = some post := by
  induction c with
  | nil =>
    rw [List.nil_append]
    cases hd : dropLit "</script>".data ("</script>".data ++ post) with
    | none => rw [dropLit_self_append] at hd; cases hd
    | some r =>
      have := dropLit_self_append "</script>".data post
      rw [this] at hd
      cases hd
      show findSubSplit "</script>".data ("</script>".data ++ post) = some post
      have h9 : "</script>".data ++ post
          = '<' :: ("/script>".data ++ post) := rfl
      rw [h9]
      simp only [findSubSplit]
      rw [show dropLit "</script>".data ('<' :: ("/script>".data ++ post))
            = some post from this]
  | cons x c' ih =>
    simp only [containsSub, Bool.or_eq_true] at hc
    have hc1 : (dropLit "</script>".data (x :: c')).isSome = false := by
      cases hiso : (dropLit "</script>".data (x :: c')).isSome with
      | false => rfl
      | true => simp [hiso] at hc
    have hc2 : containsSub "</script>".data c' = false := by
      cases hcs : containsSub "</script>".data c' with
      | false => rfl
      | true => simp [hcs] at hc
    have hd : dropLit "</script>".data ((x :: c') ++ ("</script>".data ++ post))
        = none := by
      cases hd : dropLit "</script>".data ((x :: c') ++ ("</script>".data ++ post)) with
      | none => rfl
      | some r =>
        exfalso
        refine @no_tag_start "</script>".data "/script>".data (x :: c') _ _ rfl
          (by decide) ?_ (by simp) hd
        simp only [containsSub, hc1, hc2, Bool.or_self]
    rw [List.cons_append]
    rw [List.cons_append] at hd
    simp only [findSubSplit, hd]
    exact ih hc2

/-- A whole `<script attrs>body</script>` block matches at its own start. -/
lemma matchBlock_script_attrs (attrs c post : List Char) (hattrs : '>' ∉ attrs)
    (hc : containsSub "</script>".data c = false) :
    matchBlock "<script".data "</script>".data
      ("<script".data ++ (attrs ++ '>' :: (c ++ ("</script>".data ++ post))))
      = some post := by
  unfold matchBlock
  rw [matchOpenTag_attrs attrs _ hattrs]
  exact findSubSplit_noContain post hc

/-- Script-tag removal deletes one well-formed block and nothing else, for an
    arbitrary document around it: the surrounding text may contain any other
    tags and text, as long as it has no further `"<script"` occurrence, the
    attribute text has no `'>'`, and the body has no own `"</script>"`. -/
lemma removeBlocksW_script_general (pre attrs c post : List Char)
    (hpp : containsSub "<script".data (pre ++ post) = false)
    (hattrs : '>' ∉ attrs)
    (hc : containsSub "</script>".data c = false) :
    removeBlocksW "<script".data "</script>".data
      (pre ++ ("<script".data ++ (attrs ++ '>' :: (c ++ ("</script>".data ++ post)))))
      = removeBlocksW "<script".data "</script>".data (pre ++ post) := by
  have hpre : containsSub "<script".data pre = false := by
    cases hcp : containsSub "<script".data pre with
    | false => rfl
    | true =>
      rw [containsSub_append_left post hcp] at hpp
      cases hpp
  rw [removeBlocksW_prescan _ _ pre _
        (prescan_block rfl (by decide) hpre
          ("<script".data ++ (attrs ++ '>' :: (c ++ ("</script>".data ++ post))))
          ("script".data ++ (attrs ++ '>' :: (c ++ ("</script>".data ++ post)))) rfl),
      removeBlocksW_prescan _ _ pre _ (prescan_append hpp)]
  exact congrArg (pre ++ ·)
    (removeBlocksW_match '<'
      ("script".data ++ (attrs ++ '>' :: (c ++ ("</script>".data ++ post)))) rfl
      (matchBlock_script_attrs attrs c post hattrs hc))

/-- The output has only plain spaces as whitespace, never two in a row. -/
def collapsedOk (l : List Char) : Prop :=
  (∀ c ∈ l, isPySpace c = true → c = ' ') ∧
  List.Chain' (fun a b => ¬(a = ' ' ∧ b = ' ')) l

lemma pySplitWsAux_words :
    ∀ (l cur : List Char), (∀ c ∈ cur, isPySpace c = false) →
      ∀ w ∈ pySplitWsAux cur l, w ≠ [] ∧ ∀ c ∈ w, isPySpace c = false := by
  intro l
  induction l with
  | nil =>
    intro cur hcur w hw
    simp only [pySplitWsAux] at hw
    split_ifs at hw with hce
    · simp at hw
    · simp only [List.mem_singleton] at hw
      subst hw
      refine ⟨?_, fun c hc2 => hcur c (List.mem_reverse.mp hc2)⟩
      cases cur with
      | nil => simp at hce
      | cons y ys => simp
  | cons c rest ih =>
    intro cur hcur w hw
    simp only [pySplitWsAux] at hw
    split_ifs at hw with hsp hce
    · exact ih [] (by simp) w hw
    · rcases List.mem_cons.mp hw with rfl | hw2
      · refine ⟨?_, fun x hx => hcur x (List.mem_reverse.mp hx)⟩
        cases cur with
        | nil => simp at hce
        | cons y ys => simp
      · exact ih [] (by simp) w hw2
    · refine ih (c :: cur) ?_ w hw
      intro x hx
      rcases List.mem_cons.mp hx with rfl | h2
      · simpa using hsp
      · exact hcur x h2

lemma chain'_of_no_space {l : List Char} (h : ∀ c ∈ l, isPySpace c = false) :
    List.Chain' (fun a b => ¬(a = ' ' ∧ b = ' ')) l := by
  induction l with
  | nil => simp
  | cons a rest ih =>
    rw [List.chain'_cons']
    constructor
    · rintro y hy ⟨ha, hb⟩
      have hsp := h a (by simp)
      rw [ha] at hsp
      simp [isPySpace] at hsp
    · exact ih (fun c hc => h c (List.mem_cons_of_mem _ hc))

lemma join_head_mem {ws2 : List (List Char)} {w2 : List Char} (hne : w2 ≠ []) :
    ∀ y ∈ (joinWith [' '] (w2 :: ws2)).head?, y ∈ w2 := by
  cases ws2 with
  | nil =>
    intro y hy
    exact List.mem_of_mem_head? hy
  | cons w3 ws3 =>
    cases w2 with
    | nil => exact absurd rfl hne
    | cons d dw =>
      intro y hy
      simp only [joinWith, List.cons_append, List.head?_cons, Option.mem_def,
        Option.some.injEq] at hy
      subst hy
      simp

lemma join_collapsed :
    ∀ ws : List (List Char),
      (∀ w ∈ ws, w ≠ [] ∧ ∀ c ∈ w, isPySpace c = false) →
      collapsedOk (joinWith [' '] ws) := by
  intro ws
  induction ws with
  | nil => exact fun _ => ⟨by simp [joinWith], by simp [joinWith]⟩
  | cons w ws ih =>
    intro h
    obtain ⟨hne, hns⟩ := h w (by simp)
    cases ws with
    | nil =>
      refine ⟨?_, chain'_of_no_space hns⟩
      intro c hc hsp
      exact absurd (hns c hc) (by simp [hsp])
    | cons w2 ws2 =>
      have ihj := ih (fun x hx => h x (List.mem_cons_of_mem _ hx))
      obtain ⟨ihm, ihc⟩ := ihj
      have hjoin : joinWith [' '] (w :: w2 :: ws2)
          = (w ++ [' ']) ++ joinWith [' '] (w2 :: ws2) := by
        show w ++ [' '] ++ joinWith [' '] (w2 :: ws2)
            = (w ++ [' ']) ++ joinWith [' '] (w2 :: ws2)
        rfl
      constructor
      · intro c hc hsp
        rw [hjoin] at hc
        rcases List.mem_append.mp hc with hc1 | hc2
        · rcases List.mem_append.mp hc1 with hcw | hcsp
          · exact absurd (hns c hcw) (by simp [hsp])
          · simpa using hcsp
        · exact ihm c hc2 hsp
      · rw [hjoin, List.chain'_append]
        refine ⟨?_, ihc, ?_⟩
        · rw [List.chain'_append]
          refine ⟨chain'_of_no_space hns, by simp, ?_⟩
          rintro x hx y hy ⟨hx', hy'⟩
          simp only [List.head?_cons, Option.mem_def, Option.some.injEq] at hy
          have hxl : x ∈ w := List.mem_of_mem_getLast? hx
          have := hns x hxl
          rw [hx'] at this
          simp [isPySpace] at this
        · rintro x hx y hy ⟨hx', hy'⟩
          obtain ⟨hne2, hns2⟩ := h w2 (by simp)
          have hy2 : y ∈ w2 := join_head_mem hne2 y hy
          have := hns2 y hy2
          rw [hy'] at this
          simp [isPySpace] at this

lemma chain'_take {α : Type*} {R : α → α → Prop} {l : List α}
    (h : List.Chain' R l) (n : Nat) : List.Chain' R (l.take n) := by
  have hsplit := List.take_append_drop n l
  rw [← hsplit] at h
  exact (List.chain'_append.mp h).1

lemma collapsedOk_take {l : List Char} (h : collapsedOk l) (n : Nat) :
    collapsedOk (l.take n) :=
  ⟨fun c hc => h.1 c (List.take_subset n l hc), chain'_take h.2 n⟩

/-- C9: removing a `<script ...>body</script>` block from an arbitrary HTML
    document — the text around it may contain any other markup, provided it
    has no second `"<script"` occurrence, the attribute text has no `'>'`,
    and the body contains no `"</script>"` of its own — leaves exactly the
    extraction of the document without the block; hence the script body, when
    absent from the rest, is absent from the output; and for every input the
    output is at most 5000 characters with whitespace runs collapsed to
    single plain spaces. -/
theorem extract_text_spec :
    (∀ pre attrs c post : List Char,
       containsSub "<script".data (pre ++ post) = false →
       '>' ∉ attrs →
       containsSub "</script>".data c = false →
       extractText (pre ++ ("<script".data ++
           (attrs ++ '>' :: (c ++ ("</script>".data ++ post)))))
         = extractText (pre ++ post)) ∧
    (∀ pre attrs c post : List Char,
       containsSub "<script".data (pre ++ post) = false →
       '>' ∉ attrs →
       containsSub "</script>".data c = false →
       containsSub c (extractText (pre ++ post)) = false →
       containsSub c (extractText (pre ++ ("<script".data ++
           (attrs ++ '>' :: (c ++ ("</script>".data ++ post)))))) = false) ∧
    (∀ html, (extractText html).length ≤ 5000 ∧ collapsedOk (extractText html)) := by
  have hmain : ∀ pre attrs c post : List Char,
      containsSub "<script".data (pre ++ post) = false →
      '>' ∉ attrs →
      containsSub "</script>".data c = false →
      extractText (pre ++ ("<script".data ++
          (attrs ++ '>' :: (c ++ ("</script>".data ++ post)))))
        = extractText (pre ++ post) := by
    intro pre attrs c post hpp hattrs hc
    have hscript := removeBlocksW_script_general pre attrs c post hpp hattrs hc
    simp only [extractText]
    rw [hscript]
  refine ⟨hmain, ?_, ?_⟩
  · intro pre attrs c post hpp hattrs hc habs
    rw [hmain pre attrs c post hpp hattrs hc]
    exact habs
  · intro html
    refine ⟨?_, ?_⟩
    · show ((joinWith [' '] (pySplitWs _)).take 5000).length ≤ 5000
      rw [List.length_take]
      exact min_le_left _ _
    · exact collapsedOk_take
        (join_collapsed _ (fun w hw => pySplitWsAux_words _ [] (by simp) w hw)) 5000

theorem extract_text_spec_witness :
    extractText ("<div>Hi</div> ".data ++ ("<script".data ++
        (" type=\"text/javascript\"".data ++ '>' ::
          ("var SECRET = 1;".data ++ ("</script>".data ++ " <b>Bye</b>".data)))))
      = extractText ("<div>Hi</div> ".data ++ " <b>Bye</b>".data) ∧
    (extractText "x <b>y</b>".data).length ≤ 5000 :=
  ⟨extract_text_spec.1 _ _ _ _ (by decide) (by decide) (by decide),
   (extract_text_spec.2.2 _).1⟩

end IStopPhish
